import Mathlib

/-!
Verification of the scanner-rs momentum-stock alerting engine.

Each Rust function under scrutiny is shallowly embedded as an executable
Lean definition, translated from the source:
  * src/tws/messages.rs   : wire codec (write_message / read_message)
  * src/catalyst.rs       : classify_catalyst
  * src/scanner.rs        : filter_momentum
  * src/history.rs        : record_stocks_batch / try_record_batch /
                            get_enrichment_cache
  * src/engine/mod.rs     : AlertEngine state machine (new,
                            init_from_sightings, poll_on/off/clear, tick)
                            and spawn_enrichment_worker

Machine integers are modelled as Nat/Int with explicit `% 2 ^ 32` where the
source performs an `as u32` cast; byte strings are `List Nat` (UTF-8 bytes);
f64 quantities occurring only in comparisons are modelled as rationals.
-/

/- ================================================================
   Section 1. Wire codec (src/tws/messages.rs)
   ================================================================ -/

/-- Big-endian byte encoding of a length after the `as u32` cast:
`(len as u32).to_be_bytes()`.  Truncation to 32 bits is the `% 256` of the
leading byte combined with the division structure, i.e. `u32be n = u32be
(n % 2^32)`. -/
def u32be (n : Nat) : List Nat :=
  [n / 2 ^ 24 % 256, n / 2 ^ 16 % 256, n / 2 ^ 8 % 256, n % 256]

/-- `u32::from_be_bytes([a,b,c,d])`. -/
def u32fromBE (a b c d : Nat) : Nat :=
  ((a * 256 + b) * 256 + c) * 256 + d

/-- The payload loop of `write_message`: for each field, append its bytes
and a terminating null. -/
def writePayload : List (List Nat) → List Nat
  | [] => []
  | f :: fs => f ++ 0 :: writePayload fs

/-- `write_message`: 4-byte big-endian length (cast to u32) followed by the
null-terminated fields. -/
def write_message (fields : List (List Nat)) : List Nat :=
  let payload := writePayload fields
  u32be payload.length ++ payload

/-- The field-splitting loop of `read_message`: each null byte emits the
accumulated field; trailing bytes with no null terminator are dropped. -/
def collectFields (acc : List Nat) : List Nat → List (List Nat)
  | [] => []
  | b :: bs =>
      if b = 0 then acc.reverse :: collectFields [] bs
      else collectFields (b :: acc) bs

/-- `read_message` over a byte stream: read the 4-byte big-endian length,
return `[]` for a zero length, otherwise read exactly `len` payload bytes
(`read_exact` fails when the stream is shorter) and split them on nulls.
Returns the fields and the unconsumed rest of the stream. -/
def read_message (stream : List Nat) : Option (List (List Nat) × List Nat) :=
  match stream with
  | a :: b :: c :: d :: rest =>
      if u32fromBE a b c d = 0 then some ([], rest)
      else if rest.length < u32fromBE a b c d then none
      else some (collectFields [] (rest.take (u32fromBE a b c d)),
                 rest.drop (u32fromBE a b c d))
  | _ => none

/-- UTF-8 bytes of the string hello. -/
def helloBytes : List Nat := [104, 101, 108, 108, 111]

/-- UTF-8 bytes of the string world. -/
def worldBytes : List Nat := [119, 111, 114, 108, 100]

/- ================================================================
   Section 2. Catalyst classification (src/catalyst.rs)
   ================================================================ -/

/-- The fixed catalyst keyword list, in source order. -/
def CATALYST_KEYWORDS : List (List Char) :=
  ["fda".data, "approval".data, "drug".data, "trial".data, "earnings".data,
   "revenue".data, "beat".data, "miss".data, "contract".data, "deal".data,
   "acquisition".data, "merger".data, "offering".data, "patent".data,
   "partnership".data, "upgrade".data, "price target".data, "dividend".data,
   "buyback".data, "split".data, "ceo".data, "appointed".data, "resign".data]

/-- One news JSON item as consumed by classify_catalyst: the title field when
present and a string (serde field access composed with as_str), and the
optional providerPublishTime integer. -/
structure NewsItem where
  title : Option (List Char)
  providerPublishTime : Option Int

/-- to_lowercase of a title, character by character (the keyword list and the
titles of interest are ASCII, where Rust and Lean case mappings agree). -/
def lowerChars (s : List Char) : List Char := s.map Char.toLower

/-- The inner keyword loop of classify_catalyst: does any keyword occur in
the lowercased title? -/
def titleMatches (title : List Char) : Bool :=
  CATALYST_KEYWORDS.any (fun kw => decide (kw <:+: lowerChars title))

/-- classify_catalyst: return the first news item, in list order, whose title
contains a catalyst keyword case-insensitively, paired with its optional
publish epoch.  A missing or non-string title behaves as the empty string. -/
def classify_catalyst : List NewsItem → Option (List Char × Option Int)
  | [] => none
  | item :: rest =>
      if titleMatches (item.title.getD []) then
        some (item.title.getD [], item.providerPublishTime)
      else classify_catalyst rest

/-- Spec-side matcher for a whole item (used to state the first-match
property via List.find?). -/
def itemMatches (item : NewsItem) : Bool := titleMatches (item.title.getD [])

/- ================================================================
   Section 3. Momentum filter (src/scanner.rs)
   ================================================================ -/

/-- ScanResult (src/models.rs); float quantities that only ever take part in
comparisons are rationals, counts are integers.  The field defaults model
ScanResult::default(). -/
structure ScanResult where
  rank : Nat := 0
  symbol : String := ""
  con_id : Int := 0
  exchange : String := ""
  currency : String := ""
  last : Option ℚ := none
  change : Option ℚ := none
  change_pct : Option ℚ := none
  bid : Option ℚ := none
  ask : Option ℚ := none
  volume : Option Int := none
  close : Option ℚ := none
  name : Option String := none
  sector : Option String := none
  industry : Option String := none
  float_shares : Option ℚ := none
  short_pct : Option ℚ := none
  avg_volume : Option Int := none
  catalyst : Option String := none
  rvol : Option ℚ := none
deriving DecidableEq

/-- The per-result predicate of filter_momentum, mirroring the source checks
in order: last present, change_pct present, price in [1, 20], change at
least 10, rvol present and at least 5, float below 10M when known, catalyst
present. -/
def momentumPass (r : ScanResult) : Bool :=
  match r.last with
  | none => false
  | some price =>
    match r.change_pct with
    | none => false
    | some chg =>
      if price < 1 ∨ 20 < price then false
      else if chg < 10 then false
      else
        match r.rvol with
        | some rv =>
            if 5 ≤ rv then
              match r.float_shares with
              | some flt =>
                  if 10000000 ≤ flt then false else r.catalyst.isSome
              | none => r.catalyst.isSome
            else false
        | none => false

/-- filter_momentum keeps the results passing all five pillars. -/
def filter_momentum (results : List ScanResult) : List ScanResult :=
  results.filter momentumPass

/-- The five momentum pillars as the claim states them. -/
def momentumSpec (r : ScanResult) : Prop :=
  (∃ p, r.last = some p ∧ 1 ≤ p ∧ p ≤ 20) ∧
  (∃ c, r.change_pct = some c ∧ 10 ≤ c) ∧
  (∃ v, r.rvol = some v ∧ 5 ≤ v) ∧
  (∀ f, r.float_shares = some f → f < 10000000) ∧
  r.catalyst.isSome = true

/-- Test fixture mirroring the source tests: rank 1, symbol TEST, the five
relevant fields chosen per case. -/
def mkTestResult (last change_pct rvol float_shares : Option ℚ)
    (catalyst : Option String) : ScanResult :=
  { rank := 1, symbol := "TEST", last := last, change_pct := change_pct,
    rvol := rvol, float_shares := float_shares, catalyst := catalyst }

/- ================================================================
   Section 4. Sightings store (src/history.rs)
   ================================================================ -/

/-- BTreeSet of &str, iterated: the distinct codes in increasing
lexicographic order.  Codes are byte strings (List Char). -/
def sortedDedup (xs : List (List Char)) : List (List Char) :=
  List.insertionSort (fun a b => a ≤ b) xs.dedup

/-- Comma-join of a code set as written to the scanners column. -/
def joinScanners (xs : List (List Char)) : List Char :=
  List.intercalate [','] (sortedDedup xs)

/-- The scanners-column computation of try_record_batch: the set of incoming
codes, unioned with the comma-split of the existing column when a row
exists, re-joined sorted. -/
def mergeScanners (incoming : List (List Char)) (existing : Option (List Char)) :
    List Char :=
  match existing with
  | some e => joinScanners (incoming ++ e.splitOn ',')
  | none => joinScanners incoming

/-- A persisted sightings row, restricted to the columns the upsert claim
concerns. -/
structure StoredRow where
  scanners : List Char
  hit_count : Int
deriving DecidableEq

/-- try_record_batch, per symbol: update the existing row (scanners union,
hit_count plus the number of incoming codes) or insert a fresh one. -/
def upsertSymbol (prev : Option StoredRow) (incoming : List (List Char)) :
    StoredRow :=
  match prev with
  | some row =>
      { scanners := mergeScanners incoming (some row.scanners),
        hit_count := row.hit_count + incoming.length }
  | none =>
      { scanners := mergeScanners incoming none,
        hit_count := incoming.length }

/-- Outcome of one try_record_batch attempt as seen by the retry loop. -/
inductive AttemptOutcome where
  | ok
  | err (msg : List Char)

/-- The connection/reset error-text test of record_stocks_batch. -/
def isConnErr (msg : List Char) : Bool :=
  decide ("connection".data <:+: msg) || decide ("Connection".data <:+: msg)
    || decide ("reset".data <:+: msg)

/-- The retry loop of record_stocks_batch from a given attempt index: on
success return Ok; on a connection-class error before the third attempt,
reconnect and retry; on any other error (or the final attempt) log and
return Ok.  Returns the number of attempts run and the returned value. -/
def recordLoop (outcomes : Nat → AttemptOutcome) (attempt : Nat) :
    Nat × Except (List Char) Unit :=
  if 3 ≤ attempt then (attempt, Except.ok ())
  else
    match outcomes attempt with
    | .ok => (attempt + 1, Except.ok ())
    | .err msg =>
        if attempt < 2 ∧ isConnErr msg = true then recordLoop outcomes (attempt + 1)
        else (attempt + 1, Except.ok ())
termination_by 3 - attempt

/-- record_stocks_batch: immediate Ok on an empty batch, else the retry
loop starting at attempt 0. -/
def record_stocks_batch (isEmpty : Bool) (outcomes : Nat → AttemptOutcome) :
    Nat × Except (List Char) Unit :=
  if isEmpty then (0, Except.ok ()) else recordLoop outcomes 0

/-- A news headline record (src/models.rs). -/
structure NewsHeadline where
  title : String
  published : Option Int
deriving DecidableEq

/-- EnrichmentData (src/enrichment.rs). -/
structure EnrichmentData where
  name : Option String := none
  sector : Option String := none
  industry : Option String := none
  float_shares : Option ℚ := none
  short_pct : Option ℚ := none
  avg_volume : Option Int := none
  catalyst : Option String := none
  news_headlines : List NewsHeadline := []
deriving DecidableEq

/-- The enriched_at column as observed through serde_json and chrono:
absent, present but not a JSON string, a string rfc3339 parsing rejects, or
a string parsing to a UTC timestamp (milliseconds). -/
inductive TsField where
  | missing
  | nonString
  | unparseable
  | parsed (t : Int)
deriving DecidableEq

/-- One row of the cache query of get_enrichment_cache. -/
structure CacheRow where
  enriched_at : TsField
  name : Option String := none
  sector : Option String := none
  industry : Option String := none
  float_shares : Option ℚ := none
  short_pct : Option ℚ := none
  avg_volume : Option Int := none
  catalyst : Option String := none
  news_headlines : List NewsHeadline := []

/-- chrono::Duration::from_std, which fails beyond the chrono range of
i64::MAX milliseconds. -/
def chronoFromStd (ms : Nat) : Option Int :=
  if ms ≤ 2 ^ 63 - 1 then some (ms : Int) else none

/-- EnrichmentData reconstructed from a cached row. -/
def rowToEnrichment (row : CacheRow) : EnrichmentData :=
  { name := row.name, sector := row.sector, industry := row.industry,
    float_shares := row.float_shares, short_pct := row.short_pct,
    avg_volume := row.avg_volume, catalyst := row.catalyst,
    news_headlines := row.news_headlines }

/-- get_enrichment_cache: query rows (None when the SELECT or its JSON parse
failed), first row, parseable enriched_at, representable and unexpired TTL;
every failure path is None rather than an error.  Times in milliseconds. -/
def get_enrichment_cache (nowUtc : Int) (maxAgeMs : Nat)
    (queryResult : Option (List CacheRow)) : Option EnrichmentData :=
  match queryResult with
  | none => none
  | some rows =>
    match rows.head? with
    | none => none
    | some row =>
      match row.enriched_at with
      | TsField.parsed t =>
          match chronoFromStd maxAgeMs with
          | none => none
          | some maxAge =>
              if nowUtc - t > maxAge then none
              else some (rowToEnrichment row)
      | _ => none

/- ================================================================
   Section 5. AlertEngine (src/engine/mod.rs)
   ================================================================ -/

/-- Request to enrich a symbol, keyed by scanner_hits. -/
structure EnrichRequest where
  symbol : String
  scanner_hits : Nat
deriving DecidableEq

/-- Application settings (src/models.rs), defaults as in the source. -/
structure Settings where
  port : Option Nat := none
  host : String := "127.0.0.1"
  rows : Nat := 25
  min_price : Option ℚ := some 1
  max_price : Option ℚ := none
deriving DecidableEq

/-- A row of the alert table, as constructed by the engine. -/
structure AlertRow where
  symbol : String
  alert_time : String
  last : Option ℚ
  change_pct : Option ℚ
  volume : Option Int
  rvol : Option ℚ
  float_shares : Option ℚ
  short_pct : Option ℚ
  name : Option String
  sector : Option String
  industry : Option String
  catalyst : Option String
  scanner_hits : Nat
  news_headlines : List NewsHeadline
  enriched : Bool
  avg_volume : Option Int
deriving DecidableEq

/-- A sighting row loaded from the store.  enriched_at: none models a NULL
column, some none a string chrono rejects, some (some t) a string parsing to
UTC time t (seconds).  news_headlines holds the serde parse result of the
JSON column ([] when missing or unparseable). -/
structure Sighting where
  symbol : String
  first_seen : String
  last_seen : String
  scanners : String
  hit_count : Option Int := none
  last_price : Option ℚ := none
  change_pct : Option ℚ := none
  rvol : Option ℚ := none
  float_shares : Option ℚ := none
  catalyst : Option String := none
  name : Option String := none
  sector : Option String := none
  enriched_at : Option (Option Int) := none
  industry : Option String := none
  short_pct : Option ℚ := none
  avg_volume : Option Int := none
  news_headlines : List NewsHeadline := []

/-- Engine state: the fields of AlertEngine that carry data (the channel
endpoints are modelled by explicit message lists passed to and returned by
the operations; the optional SupabaseClient handle by hasDb). -/
structure EngineState where
  settings : Settings
  alert_rows : List AlertRow
  alert_seen : Finset String
  polling : Bool
  connected_port : Option Nat
  hasDb : Bool
  bg_busy : Bool

/-- AlertEngine::new. -/
def newEngine (settings : Settings) (hasDb : Bool) : EngineState :=
  { settings := settings, alert_rows := [], alert_seen := ∅,
    polling := false, connected_port := none, hasDb := hasDb,
    bg_busy := false }

/-- run_poll_scanners: a no-op when busy, else mark busy (the spawned scan
itself reports back through the background channel). -/
def run_poll_scanners (st : EngineState) : EngineState :=
  if st.bg_busy then st else { st with bg_busy := true }

/-- poll_on: set polling and kick the first cycle; false if already on. -/
def poll_on (st : EngineState) : EngineState × Bool :=
  if st.polling then (st, false)
  else (run_poll_scanners { st with polling := true }, true)

/-- poll_off. -/
def poll_off (st : EngineState) : EngineState :=
  { st with polling := false }

/-- poll_clear: empty the seen set and alert rows, send the sentinel, return
the prior seen-set size. -/
def poll_clear (st : EngineState) : EngineState × Nat × List EnrichRequest :=
  ({ st with alert_seen := ∅, alert_rows := [] },
   st.alert_seen.card, [{ symbol := "", scanner_hits := 0 }])

/-- ENRICH_CACHE_TTL, in seconds. -/
def ENRICH_CACHE_TTL : Int := 900

/-- The freshness check of init_from_sightings: enriched_at parses and its
age below the TTL. -/
def enrichmentFresh (nowUtc : Int) : Option (Option Int) → Bool
  | some (some t) => decide (nowUtc - t < ENRICH_CACHE_TTL)
  | _ => false

/-- Abstract stand-in for history::local_time_str: no claim inspects the
rendered HH:MM:SS text, so the row keeps the raw timestamp string. -/
def local_time_str (iso : String) : String := iso

/-- The AlertRow seeded from one sighting by init_from_sightings. -/
def sightingRow (nowUtc : Int) (s : Sighting) : AlertRow :=
  { symbol := s.symbol,
    alert_time := local_time_str s.first_seen,
    last := s.last_price,
    change_pct := s.change_pct,
    volume := none,
    rvol := s.rvol,
    float_shares := s.float_shares,
    short_pct := s.short_pct,
    name := s.name,
    sector := s.sector,
    industry := s.industry,
    catalyst := s.catalyst,
    scanner_hits := (s.scanners.data.splitOn ',').length,
    news_headlines := s.news_headlines,
    enriched := enrichmentFresh nowUtc s.enriched_at,
    avg_volume := s.avg_volume }

/-- The per-sighting loop of init_from_sightings: insert the symbol into the
seen set, push the row, and dispatch an EnrichRequest when not fresh.
Returns the final state, the needs-enrichment count and the dispatched
requests. -/
def initLoop (nowUtc : Int) :
    List Sighting → EngineState → EngineState × Nat × List EnrichRequest
  | [], st => (st, 0, [])
  | s :: rest, st =>
      let nScans := (s.scanners.data.splitOn ',').length
      let fresh := enrichmentFresh nowUtc s.enriched_at
      let st1 : EngineState :=
        { st with alert_seen := insert s.symbol st.alert_seen,
                  alert_rows := st.alert_rows ++ [sightingRow nowUtc s] }
      let out := initLoop nowUtc rest st1
      (out.1, (if fresh then 0 else 1) + out.2.1,
       (if fresh then [] else [{ symbol := s.symbol, scanner_hits := nScans }]) ++ out.2.2)

/-- init_from_sightings: nothing without a store handle or on a failed
get_today query; otherwise seed alert state from the rows.  Returns the
state, (loaded, needs_enrichment) and the dispatched requests. -/
def init_from_sightings (nowUtc : Int) (today : Option (List Sighting))
    (st : EngineState) : EngineState × (Nat × Nat) × List EnrichRequest :=
  if st.hasDb then
    match today with
    | some list =>
        let out := initLoop nowUtc list st
        (out.1, (list.length, out.2.1), out.2.2)
    | none => (st, (0, 0), [])
  else (st, (0, 0), [])

/-- Message from a background operation.  The two poll maps are HashMaps in
the source; they are modelled as association lists (one entry per key). -/
inductive BgMessage where
  | scanComplete (scanner_code : String) (results : List ScanResult)
      (port : Option Nat)
  | listComplete (xml : Option String) (group : Option String)
  | pollComplete (symbol_data : List (String × ScanResult))
      (symbol_scanners : List (String × List String))
      (port : Option Nat) (scanners_run : Nat) (elapsed_secs : ℚ)
  | enrichComplete (symbol : String) (data : EnrichmentData)

/-- Events emitted by the engine for consumers. -/
inductive EngineEvent where
  | scanComplete (scanner_code : String) (results : List ScanResult)
  | listComplete (xml : Option String) (group : Option String)
  | pollCycleComplete (total_stocks : Nat) (new_symbols : List String)
      (scanners_run : Nat) (elapsed_secs : ℚ)
  | enrichComplete (symbol : String)
  | portDiscovered (port : Nat)

/-- The change_pct sort key with a missing value as zero. -/
def chgKey (r : AlertRow) : ℚ := r.change_pct.getD 0

/-- The full sort key of an alert row. -/
def rowKey (r : AlertRow) : Nat × ℚ := (r.scanner_hits, chgKey r)

/-- Comes-no-later-than for sort keys: scanner_hits descending, then
change_pct descending. -/
def keyLE (p q : Nat × ℚ) : Prop :=
  q.1 < p.1 ∨ (p.1 = q.1 ∧ q.2 ≤ p.2)

/-- The row ordering produced by the sort_by comparator in tick. -/
def rowLE (a b : AlertRow) : Prop := keyLE (rowKey a) (rowKey b)

instance (p q : Nat × ℚ) : Decidable (keyLE p q) := by
  unfold keyLE; infer_instance

instance : DecidableRel rowLE := by
  intro a b; unfold rowLE; infer_instance

/-- The engine sort: Rust sort_by is a stable sort, as is insertion sort,
and stable sorting under a total preorder is unique. -/
def sortRows (rows : List AlertRow) : List AlertRow :=
  List.insertionSort rowLE rows

/-- The row-field updates applied on EnrichComplete. -/
def applyEnrich (data : EnrichmentData) (r : AlertRow) : AlertRow :=
  let r1 := { r with
    name := data.name, sector := data.sector, industry := data.industry,
    float_shares := data.float_shares, short_pct := data.short_pct,
    catalyst := data.catalyst, news_headlines := data.news_headlines,
    avg_volume := data.avg_volume }
  let r2 := match r.volume, data.avg_volume with
    | some vol, some avg =>
        if 0 < avg then { r1 with rvol := some ((vol : ℚ) / (avg : ℚ)) } else r1
    | _, _ => r1
  { r2 with enriched := true }

/-- iter_mut().find(symbol match) followed by the field updates: only the
first matching row changes. -/
def updateFirstRow (sym : String) (data : EnrichmentData) :
    List AlertRow → List AlertRow
  | [] => []
  | r :: rs =>
      if r.symbol = sym then applyEnrich data r :: rs
      else r :: updateFirstRow sym data rs

/-- connected_port update plus PortDiscovered event on a reported port. -/
def portUpdate (st : EngineState) : Option Nat → EngineState × List EngineEvent
  | some p => ({ st with connected_port := some p }, [EngineEvent.portDiscovered p])
  | none => (st, [])

/-- The fresh AlertRow pushed for a newly seen symbol during PollComplete. -/
def pollNewRow (nowStr : String) (sym : String) (r : ScanResult) (hits : Nat) :
    AlertRow :=
  { symbol := sym, alert_time := nowStr, last := r.last,
    change_pct := r.change_pct, volume := r.volume, rvol := none,
    float_shares := none, short_pct := none, name := none, sector := none,
    industry := none, catalyst := none, scanner_hits := hits,
    news_headlines := [], enriched := false, avg_volume := none }

/-- The new-symbol loop of PollComplete processing: insert into the seen
set, push an AlertRow with hits = number of scanners that returned the
symbol, dispatch an EnrichRequest at that priority. -/
def addNewSyms (nowStr : String) (symbol_data : List (String × ScanResult))
    (symbol_scanners : List (String × List String)) :
    List String → EngineState → EngineState × List EnrichRequest
  | [], st => (st, [])
  | sym :: rest, st =>
      let st1 : EngineState := { st with alert_seen := insert sym st.alert_seen }
      match symbol_data.lookup sym with
      | some r =>
          let hits := ((symbol_scanners.lookup sym).getD []).length
          let st2 : EngineState :=
            { st1 with alert_rows := st1.alert_rows ++ [pollNewRow nowStr sym r hits] }
          let out := addNewSyms nowStr symbol_data symbol_scanners rest st2
          (out.1, { symbol := sym, scanner_hits := hits } :: out.2)
      | none => addNewSyms nowStr symbol_data symbol_scanners rest st1

/-- Processing of one drained background message inside tick.  The store
write (record_stocks_batch) always returns Ok and does not alter engine
state, so it contributes nothing here. -/
def processMsg (nowStr : String) (st : EngineState) :
    BgMessage → EngineState × List EngineEvent × List EnrichRequest
  | .scanComplete code results port =>
      let out := portUpdate st port
      ({ out.1 with bg_busy := false },
       out.2 ++ [EngineEvent.scanComplete code results],
       results.map (fun r => { symbol := r.symbol, scanner_hits := 1 }))
  | .listComplete xml group =>
      ({ st with bg_busy := false }, [EngineEvent.listComplete xml group], [])
  | .pollComplete symbol_data symbol_scanners port scanners_run elapsed =>
      let out := portUpdate st port
      let st1 := out.1
      let new_syms := (symbol_data.map Prod.fst).filter
        (fun s => decide (s ∉ st1.alert_seen))
      let out2 := addNewSyms nowStr symbol_data symbol_scanners new_syms st1
      let st2 := out2.1
      let st3 : EngineState :=
        { st2 with alert_rows := sortRows st2.alert_rows, bg_busy := false }
      (st3,
       out.2 ++ [EngineEvent.pollCycleComplete symbol_data.length new_syms
                  scanners_run elapsed],
       out2.2)
  | .enrichComplete sym data =>
      ({ st with alert_rows := updateFirstRow sym data st.alert_rows },
       [EngineEvent.enrichComplete sym], [])

/-- tick: drain the given batch of background messages in order.  Returns
the final state, the emitted events, and the dispatched enrichment
requests. -/
def tick (nowStr : String) :
    List BgMessage → EngineState → EngineState × List EngineEvent × List EnrichRequest
  | [], st => (st, [], [])
  | msg :: rest, st =>
      let out1 := processMsg nowStr st msg
      let out2 := tick nowStr rest out1.1
      (out2.1, out1.2.1 ++ out2.2.1, out1.2.2 ++ out2.2.2)

/-- Is a drained message a PollComplete? -/
def isPollMsg : BgMessage → Bool
  | .pollComplete _ _ _ _ _ => true
  | _ => false

/-- The HashMap-origin constraint on a drained message: the symbol_data map
of a PollComplete has one entry per key. -/
def msgWF : BgMessage → Prop
  | .pollComplete symbol_data _ _ _ _ => (symbol_data.map Prod.fst).Nodup
  | _ => True

/- ================================================================
   Section 6. EnrichmentWorker (src/engine/mod.rs, spawn_enrichment_worker)
   ================================================================ -/

/-- Worker-local state: the pending BinaryHeap (as the multiset of queued
requests) and the already-enriched set. -/
structure WState where
  heap : List EnrichRequest
  enriched : Finset String

/-- Worker state at thread start. -/
def initialWState : WState := { heap := [], enriched := ∅ }

/-- BinaryHeap::pop returns a maximal element by the EnrichRequest ordering
(scanner_hits; tie order unspecified). -/
def isMax (heap : List EnrichRequest) (r : EnrichRequest) : Prop :=
  r ∈ heap ∧ ∀ q ∈ heap, q.scanner_hits ≤ r.scanner_hits

/-- Observable worker events: a channel receive, a sentinel receive, a pop
that fetches via the Enricher (cache miss), a pop served from the store
cache, a pop skipped as already enriched, and an idle timeout. -/
inductive WEv where
  | recv (r : EnrichRequest)
  | sentinel
  | fetchMiss (sym : String)
  | fetchHit (sym : String)
  | skip (sym : String)
  | timeout

/-- One step of the worker loop, from spawn_enrichment_worker:
  * a drained or blocking-received request with a fresh symbol is pushed;
  * one whose symbol is already enriched is dropped;
  * an empty-symbol request in the drain branch clears heap and set, and in
    the blocking branch (heap necessarily empty) clears the set;
  * popping a maximal request either skips (already enriched) or inserts
    the symbol and fetches, via cache or Enricher;
  * the 1-second recv timeout changes nothing. -/
inductive WStep : WState → WEv → WState → Prop where
  | recv_push (s : WState) (r : EnrichRequest) :
      r.symbol ≠ "" → r.symbol ∉ s.enriched →
      WStep s (.recv r) { heap := s.heap ++ [r], enriched := s.enriched }
  | recv_dup (s : WState) (r : EnrichRequest) :
      r.symbol ≠ "" → r.symbol ∈ s.enriched →
      WStep s (.recv r) s
  | recv_sentinel (s : WState) :
      WStep s .sentinel { heap := [], enriched := ∅ }
  | recv_sentinel_idle (s : WState) :
      s.heap = [] →
      WStep s .sentinel { heap := s.heap, enriched := ∅ }
  | pop_skip (s : WState) (r : EnrichRequest) :
      isMax s.heap r → r.symbol ∈ s.enriched →
      WStep s (.skip r.symbol) { heap := s.heap.erase r, enriched := s.enriched }
  | pop_hit (s : WState) (r : EnrichRequest) :
      isMax s.heap r → r.symbol ∉ s.enriched →
      WStep s (.fetchHit r.symbol)
        { heap := s.heap.erase r, enriched := insert r.symbol s.enriched }
  | pop_miss (s : WState) (r : EnrichRequest) :
      isMax s.heap r → r.symbol ∉ s.enriched →
      WStep s (.fetchMiss r.symbol)
        { heap := s.heap.erase r, enriched := insert r.symbol s.enriched }
  | step_timeout (s : WState) :
      WStep s .timeout s

/-- A finite execution of the worker along a trace of events. -/
inductive WSteps : WState → List WEv → WState → Prop where
  | nil (s : WState) : WSteps s [] s
  | cons (s s1 s2 : WState) (e : WEv) (evs : List WEv) :
      WStep s e s1 → WSteps s1 evs s2 → WSteps s (e :: evs) s2

/-- Does an event call the Enricher for this symbol? -/
def isFetchOf (sym : String) : WEv → Bool
  | .fetchMiss s => decide (s = sym)
  | _ => false

/-- Is an event a sentinel receive? -/
def isSentinelEv : WEv → Bool
  | .sentinel => true
  | _ => false

/-- A news item with a plain string title. -/
def mkNewsItem (t : String) (ts : Option Int) : NewsItem :=
  { title := some t.data, providerPublishTime := ts }

/-- The symbols of the alert rows, in row order. -/
def rowSyms (rows : List AlertRow) : List String :=
  rows.map AlertRow.symbol

/-- The alert-table invariant: one row per symbol, and the row symbols are
exactly the dedup set. -/
def EngineInv (st : EngineState) : Prop :=
  (rowSyms st.alert_rows).Nodup ∧
  ∀ x, x ∈ rowSyms st.alert_rows ↔ x ∈ st.alert_seen

/-- States reachable by the public operations, with arbitrary external
inputs: clock values, store query results, and drained message batches
(whose poll maps, coming from HashMaps, have one entry per key). -/
inductive Reachable : EngineState → Prop where
  | new (settings : Settings) (hasDb : Bool) :
      Reachable (newEngine settings hasDb)
  | init (st : EngineState) (nowUtc : Int) (today : Option (List Sighting)) :
      Reachable st → Reachable (init_from_sightings nowUtc today st).1
  | pollOn (st : EngineState) : Reachable st → Reachable (poll_on st).1
  | pollOff (st : EngineState) : Reachable st → Reachable (poll_off st)
  | pollClear (st : EngineState) : Reachable st → Reachable (poll_clear st).1
  | tickR (st : EngineState) (nowStr : String) (msgs : List BgMessage) :
      (∀ m ∈ msgs, msgWF m) → Reachable st →
      Reachable (tick nowStr msgs st).1

/-- Reachability under the intended startup protocol: like Reachable, but
every init_from_sightings call receives rows with pairwise-distinct symbols
none of which is already in the dedup set (as on a fresh engine at
startup). -/
inductive GoodReachable : EngineState → Prop where
  | new (settings : Settings) (hasDb : Bool) :
      GoodReachable (newEngine settings hasDb)
  | init (st : EngineState) (nowUtc : Int) (today : Option (List Sighting)) :
      ((today.getD []).map Sighting.symbol).Nodup →
      (∀ s ∈ today.getD [], s.symbol ∉ st.alert_seen) →
      GoodReachable st → GoodReachable (init_from_sightings nowUtc today st).1
  | pollOn (st : EngineState) : GoodReachable st → GoodReachable (poll_on st).1
  | pollOff (st : EngineState) : GoodReachable st → GoodReachable (poll_off st)
  | pollClear (st : EngineState) : GoodReachable st → GoodReachable (poll_clear st).1
  | tickR (st : EngineState) (nowStr : String) (msgs : List BgMessage) :
      (∀ m ∈ msgs, msgWF m) → GoodReachable st →
      GoodReachable (tick nowStr msgs st).1

/-- A sighting hit by one scanner. -/
def ceSighting1 : Sighting :=
  { symbol := "AAA", first_seen := "2024-01-02T09:10:00+00:00",
    last_seen := "2024-01-02T09:10:00+00:00", scanners := "HOT_BY_VOLUME" }

/-- A sighting hit by three scanners. -/
def ceSighting2 : Sighting :=
  { symbol := "BBB", first_seen := "2024-01-02T09:05:00+00:00",
    last_seen := "2024-01-02T09:05:00+00:00",
    scanners := "HOT_BY_VOLUME,TOP_PERC_GAIN,MOST_ACTIVE" }

/-- Engine state after loading the two sightings at startup: the 1-hit row
sits before the 3-hit row, since init_from_sightings pushes rows in query
order (first_seen descending) without sorting. -/
def ceInitState : EngineState :=
  (init_from_sightings 0 (some [ceSighting1, ceSighting2])
    (newEngine { } true)).1

/-- The same state after a tick that drains one EnrichComplete message:
tick only re-sorts while processing a PollComplete. -/
def ceTickState : EngineState :=
  (tick "" [BgMessage.enrichComplete "AAA" { }] ceInitState).1

/-- The same engine reached by calling init_from_sightings twice with the
same sightings row. -/
def ceDupState : EngineState :=
  (init_from_sightings 0 (some [ceSighting1])
    (init_from_sightings 0 (some [ceSighting1]) (newEngine { } true)).1).1

/- ========= end of wire-codec definitions ========= -/

theorem read_message_cons (a b c d : Nat) (rest : List Nat) :
    read_message (a :: b :: c :: d :: rest) =
      if u32fromBE a b c d = 0 then some ([], rest)
      else if rest.length < u32fromBE a b c d then none
      else some (collectFields [] (rest.take (u32fromBE a b c d)),
                 rest.drop (u32fromBE a b c d)) := rfl

theorem u32fromBE_u32be (n : Nat) (h : n < 2 ^ 32) :
    u32fromBE (n / 2 ^ 24 % 256) (n / 2 ^ 16 % 256) (n / 2 ^ 8 % 256) (n % 256) = n := by
  simp only [u32fromBE]
  omega

theorem collectFields_append (f t : List Nat) (acc : List Nat) (hf : 0 ∉ f) :
    collectFields acc (f ++ 0 :: t) = (acc.reverse ++ f) :: collectFields [] t := by
  induction f generalizing acc with
  | nil => simp [collectFields]
  | cons b bs ih =>
      have hb : b ≠ 0 := fun h => hf (h ▸ List.mem_cons_self b bs)
      have hbs : 0 ∉ bs := fun h => hf (List.mem_cons_of_mem b h)
      rw [List.cons_append, collectFields, if_neg hb, ih _ hbs]
      simp

theorem collectFields_writePayload (fs : List (List Nat))
    (h : ∀ f ∈ fs, (0 : Nat) ∉ f) :
    collectFields [] (writePayload fs) = fs := by
  induction fs with
  | nil => simp [writePayload, collectFields]
  | cons f fs ih =>
      have hf : 0 ∉ f := h f (List.mem_cons_self f fs)
      have hfs : ∀ g ∈ fs, (0 : Nat) ∉ g := fun g hg => h g (List.mem_cons_of_mem f hg)
      simp only [writePayload, collectFields_append f (writePayload fs) [] hf,
        List.reverse_nil, List.nil_append, ih hfs]

theorem writePayload_eq_nil (fs : List (List Nat)) (h : writePayload fs = []) :
    fs = [] := by
  cases fs with
  | nil => rfl
  | cons f fs => simp [writePayload] at h

theorem read_write_message (fs : List (List Nat))
    (h0 : ∀ f ∈ fs, (0 : Nat) ∉ f)
    (hlen : (writePayload fs).length < 2 ^ 32) :
    read_message (write_message fs) = some (fs, []) := by
  have hlen' := u32fromBE_u32be (writePayload fs).length hlen
  show read_message (u32be (writePayload fs).length ++ writePayload fs) = _
  simp only [u32be, List.cons_append, List.nil_append, read_message_cons, hlen']
  by_cases hz : (writePayload fs).length = 0
  · have hnil : writePayload fs = [] := List.eq_nil_of_length_eq_zero hz
    have hfs : fs = [] := writePayload_eq_nil fs hnil
    subst hfs
    simp [writePayload]
  · rw [if_neg hz, if_neg (by omega)]
    rw [List.take_length, List.drop_length, collectFields_writePayload fs h0]

/-- C3 (amended): for fields with no null byte whose total payload fits in a
u32, decoding the encoding returns the fields and consumes the whole stream;
the concrete encodings of [hello, world] and of the empty vector are as
specified. -/
theorem wire_codec_roundtrip :
    (∀ fs : List (List Nat), (∀ f ∈ fs, (0 : Nat) ∉ f) →
        (writePayload fs).length < 2 ^ 32 →
        read_message (write_message fs) = some (fs, []))
    ∧ write_message [helloBytes, worldBytes]
        = [0, 0, 0, 12] ++ (helloBytes ++ [0] ++ (worldBytes ++ [0]))
    ∧ write_message [] = [0, 0, 0, 0] := by
  refine ⟨read_write_message, by decide, by decide⟩

/-- C3 witness: the round-trip theorem applied at the concrete two-field
message. -/
theorem wire_codec_roundtrip_witness :
    read_message (write_message [helloBytes, worldBytes])
      = some ([helloBytes, worldBytes], []) :=
  wire_codec_roundtrip.1 [helloBytes, worldBytes] (by decide) (by decide)

/-- C3 counterexample: the claim as stated fails for a single field of
2^32 bytes: the length prefix truncates (`as u32`), so decoding returns no
fields at all. -/
theorem wire_codec_roundtrip_counterexample :
    read_message (write_message [List.replicate 4294967296 1]) ≠
      some ([List.replicate 4294967296 1], []) := by
  intro h
  have hp : writePayload [List.replicate 4294967296 1]
      = List.replicate 4294967296 1 ++ [0] := rfl
  have hl : (writePayload [List.replicate 4294967296 1]).length = 4294967297 := by
    rw [hp, List.length_append, List.length_replicate]
    rfl
  have hbe : u32be 4294967297 = [0, 0, 0, 1] := by decide
  have hstream : write_message [List.replicate 4294967296 1]
      = 0 :: 0 :: 0 :: 1 :: (List.replicate 4294967296 1 ++ [0]) := by
    show u32be (writePayload [List.replicate 4294967296 1]).length
        ++ writePayload [List.replicate 4294967296 1] = _
    rw [hl, hp, hbe]
    rfl
  rw [hstream, read_message_cons] at h
  have hfrom : u32fromBE 0 0 0 1 = 1 := by decide
  rw [hfrom] at h
  have hrl : (List.replicate 4294967296 1 ++ [0] : List Nat).length = 4294967297 := by
    rw [List.length_append, List.length_replicate]
    rfl
  rw [hrl, if_neg (by decide), if_neg (by decide)] at h
  have htake : (List.replicate 4294967296 1 ++ [0] : List Nat).take 1 = [1] := by
    rw [List.take_append_eq_append_take, List.take_replicate, List.length_replicate]
    have hmin : min 1 4294967296 = 1 := by decide
    have hsub : 1 - 4294967296 = 0 := by decide
    rw [hmin, hsub, List.take_zero, List.append_nil]
    rfl
  rw [htake] at h
  have hcf : (collectFields [] [1] : List (List Nat)) = [] := rfl
  rw [hcf] at h
  have h2 := congrArg Prod.fst (Option.some.inj h)
  exact List.cons_ne_nil _ _ h2.symm

theorem classify_catalyst_eq_find (news : List NewsItem) :
    classify_catalyst news =
      (news.find? itemMatches).map
        (fun i => (i.title.getD [], i.providerPublishTime)) := by
  induction news with
  | nil => rfl
  | cons item rest ih =>
      cases h : itemMatches item
      · have h' : titleMatches (item.title.getD []) = false := h
        simp [classify_catalyst, List.find?_cons, h, h', ih]
      · have h' : titleMatches (item.title.getD []) = true := h
        simp [classify_catalyst, List.find?_cons, h, h']

/-- C9: classify_catalyst returns the first news item, in list order, whose
title contains a catalyst keyword case-insensitively, paired with that
item's optional publish epoch; None on an empty list or no match; the
concrete scenarios behave as specified. -/
theorem classify_catalyst_spec :
    (∀ news : List NewsItem,
        classify_catalyst news =
          (news.find? itemMatches).map
            (fun i => (i.title.getD [], i.providerPublishTime)))
    ∧ classify_catalyst
        [mkNewsItem "Stock market rises today" none,
         mkNewsItem "ACME beats earnings expectations" none]
        = some ("ACME beats earnings expectations".data, none)
    ∧ classify_catalyst [] = none
    ∧ (classify_catalyst [mkNewsItem "CEO Resigns from Company" none]).isSome
        = true := by
  refine ⟨classify_catalyst_eq_find, by decide, rfl, by decide⟩

/-- C8: filter_momentum keeps exactly the results passing the five pillars
(price in [1,20], change at least 10, rvol at least 5, float under 10M or
unknown, catalyst present, with absent last or change_pct rejecting), and
the concrete pass/reject table holds. -/
theorem filter_momentum_spec :
    (∀ rs : List ScanResult, filter_momentum rs = rs.filter momentumPass)
    ∧ (∀ r : ScanResult, momentumPass r = true ↔ momentumSpec r)
    ∧ momentumPass (mkTestResult (some 5) (some 15) (some 6) (some 5000000)
        (some "FDA approval")) = true
    ∧ momentumPass (mkTestResult (some 25) (some 15) (some 6) (some 5000000)
        (some "FDA approval")) = false
    ∧ momentumPass (mkTestResult (some (1 / 2)) (some 15) (some 6) (some 5000000)
        (some "FDA approval")) = false
    ∧ momentumPass (mkTestResult (some 5) (some (99 / 10)) (some 6) (some 5000000)
        (some "FDA approval")) = false
    ∧ momentumPass (mkTestResult (some 5) (some 15) (some (49 / 10)) (some 5000000)
        (some "FDA approval")) = false
    ∧ momentumPass (mkTestResult (some 5) (some 15) (some 6) (some 15000000)
        (some "FDA approval")) = false
    ∧ momentumPass (mkTestResult (some 5) (some 15) (some 6) (some 5000000)
        none) = false
    ∧ momentumPass (mkTestResult none (some 15) (some 6) (some 5000000)
        (some "FDA approval")) = false
    ∧ momentumPass (mkTestResult (some 5) none (some 6) (some 5000000)
        (some "FDA approval")) = false
    ∧ momentumPass (mkTestResult (some 1) (some 15) (some 6) (some 5000000)
        (some "FDA approval")) = true
    ∧ momentumPass (mkTestResult (some 20) (some 15) (some 6) (some 5000000)
        (some "FDA approval")) = true
    ∧ momentumPass (mkTestResult (some 5) (some 10) (some 6) (some 5000000)
        (some "FDA approval")) = true
    ∧ momentumPass (mkTestResult (some 5) (some 15) (some 5) (some 5000000)
        (some "FDA approval")) = true
    ∧ momentumPass (mkTestResult (some 5) (some 15) (some 6) none
        (some "FDA approval")) = true := by
  refine ⟨fun rs => rfl, ?_, ?momA, ?momB, ?momC, ?momD, ?momE, ?momF, ?momG,
    ?momH, ?momI, ?momJ, ?momK, ?momL, ?momM, ?momN⟩
  case momA => norm_num [momentumPass, mkTestResult]
  case momB => norm_num [momentumPass, mkTestResult]
  case momC => norm_num [momentumPass, mkTestResult]
  case momD => norm_num [momentumPass, mkTestResult]
  case momE => norm_num [momentumPass, mkTestResult]
  case momF => norm_num [momentumPass, mkTestResult]
  case momG => norm_num [momentumPass, mkTestResult]
  case momH => norm_num [momentumPass, mkTestResult]
  case momI => norm_num [momentumPass, mkTestResult]
  case momJ => norm_num [momentumPass, mkTestResult]
  case momK => norm_num [momentumPass, mkTestResult]
  case momL => norm_num [momentumPass, mkTestResult]
  case momM => norm_num [momentumPass, mkTestResult]
  case momN => norm_num [momentumPass, mkTestResult]
  intro r
  unfold momentumPass momentumSpec
  rcases hl : r.last with _ | p <;> rcases hc : r.change_pct with _ | c <;>
    rcases hv : r.rvol with _ | v <;> rcases hf : r.float_shares with _ | f <;>
    simp <;> split_ifs <;> simp_all

/-- C10: poll_clear empties exactly the seen set and the alert rows, sends
one sentinel on the enrichment channel, returns the prior seen-set size,
and leaves polling, bg_busy, connected_port, settings and the store handle
untouched. -/
theorem poll_clear_frame (st : EngineState) :
    (poll_clear st).1.alert_rows = []
    ∧ (poll_clear st).1.alert_seen = ∅
    ∧ (poll_clear st).2.1 = st.alert_seen.card
    ∧ (poll_clear st).2.2 = [{ symbol := "", scanner_hits := 0 }]
    ∧ (poll_clear st).1.polling = st.polling
    ∧ (poll_clear st).1.bg_busy = st.bg_busy
    ∧ (poll_clear st).1.connected_port = st.connected_port
    ∧ (poll_clear st).1.settings = st.settings
    ∧ (poll_clear st).1.hasDb = st.hasDb :=
  ⟨rfl, rfl, rfl, rfl, rfl, rfl, rfl, rfl, rfl⟩

theorem recordLoop_eq (outcomes : Nat → AttemptOutcome) (a : Nat) :
    recordLoop outcomes a =
      if 3 ≤ a then (a, Except.ok ())
      else
        match outcomes a with
        | .ok => (a + 1, Except.ok ())
        | .err msg =>
            if a < 2 ∧ isConnErr msg = true then recordLoop outcomes (a + 1)
            else (a + 1, Except.ok ()) := by
  rw [recordLoop]

/-- C6: record_stocks_batch returns success for every batch and every
sequence of attempt outcomes, makes at most three attempts, and every
non-final attempt was a connection-class failure occurring before the third
attempt. -/
theorem record_stocks_batch_total (isEmpty : Bool) (outcomes : Nat → AttemptOutcome) :
    (record_stocks_batch isEmpty outcomes).2 = Except.ok ()
    ∧ (record_stocks_batch isEmpty outcomes).1 ≤ 3
    ∧ ∀ i, i + 1 < (record_stocks_batch isEmpty outcomes).1 →
        i < 2 ∧ ∃ m, outcomes i = AttemptOutcome.err m ∧ isConnErr m = true := by
  cases isEmpty with
  | true =>
      refine ⟨rfl, by norm_num [record_stocks_batch], ?_⟩
      intro i hi
      simp [record_stocks_batch] at hi
  | false =>
      have hbase : record_stocks_batch false outcomes = recordLoop outcomes 0 := by
        simp [record_stocks_batch]
      rw [hbase]
      rcases ho0 : outcomes 0 with _ | m0
      · have e : recordLoop outcomes 0 = (1, Except.ok ()) := by
          rw [recordLoop_eq]; simp [ho0]
        rw [e]
        exact ⟨rfl, by norm_num, fun i hi => absurd hi (by norm_num)⟩
      · cases hc0 : isConnErr m0 with
        | false =>
            have e : recordLoop outcomes 0 = (1, Except.ok ()) := by
              rw [recordLoop_eq]; simp [ho0, hc0]
            rw [e]
            exact ⟨rfl, by norm_num, fun i hi => absurd hi (by norm_num)⟩
        | true =>
            have e0 : recordLoop outcomes 0 = recordLoop outcomes 1 := by
              rw [recordLoop_eq]; simp [ho0, hc0]
            rw [e0]
            rcases ho1 : outcomes 1 with _ | m1
            · have e : recordLoop outcomes 1 = (2, Except.ok ()) := by
                rw [recordLoop_eq]; simp [ho1]
              rw [e]
              refine ⟨rfl, by norm_num, ?_⟩
              intro i hi
              have hi0 : i = 0 := by omega
              subst hi0
              exact ⟨by omega, m0, ho0, hc0⟩
            · cases hc1 : isConnErr m1 with
              | false =>
                  have e : recordLoop outcomes 1 = (2, Except.ok ()) := by
                    rw [recordLoop_eq]; simp [ho1, hc1]
                  rw [e]
                  refine ⟨rfl, by norm_num, ?_⟩
                  intro i hi
                  have hi0 : i = 0 := by omega
                  subst hi0
                  exact ⟨by omega, m0, ho0, hc0⟩
              | true =>
                  have e1 : recordLoop outcomes 1 = recordLoop outcomes 2 := by
                    rw [recordLoop_eq]; simp [ho1, hc1]
                  have e2 : recordLoop outcomes 2 = (3, Except.ok ()) := by
                    rw [recordLoop_eq]
                    rcases ho2 : outcomes 2 with _ | m2 <;> simp [ho2]
                  rw [e1, e2]
                  refine ⟨rfl, by norm_num, ?_⟩
                  intro i hi
                  have : i = 0 ∨ i = 1 := by omega
                  rcases this with h | h <;> subst h
                  · exact ⟨by omega, m0, ho0, hc0⟩
                  · exact ⟨by omega, m1, ho1, hc1⟩

/-- C6 witness: a batch whose first attempt hits a connection reset and
whose second succeeds: two attempts, success, and the single retry was
connection-class. -/
theorem record_stocks_batch_total_witness :
    ((record_stocks_batch false
        (fun i => if i = 0 then AttemptOutcome.err "connection reset by peer".data
                  else AttemptOutcome.ok)).2 = Except.ok ())
    ∧ ((record_stocks_batch false
        (fun i => if i = 0 then AttemptOutcome.err "connection reset by peer".data
                  else AttemptOutcome.ok)).1 ≤ 3) :=
  ⟨(record_stocks_batch_total false _).1, (record_stocks_batch_total false _).2.1⟩

/-- C7 (amended): for a TTL within the chrono range, get_enrichment_cache
returns Some exactly when the query produced a row whose enriched_at parsed
and lies within max_age of now; every other outcome (failed query, no row,
missing or unparseable enriched_at, stale timestamp) is None, never an
error. -/
theorem get_enrichment_cache_spec (nowUtc : Int) (maxAgeMs : Nat)
    (q : Option (List CacheRow)) (hrange : maxAgeMs ≤ 2 ^ 63 - 1) :
    (get_enrichment_cache nowUtc maxAgeMs q).isSome = true ↔
      ∃ rows row t, q = some rows ∧ rows.head? = some row ∧
        row.enriched_at = TsField.parsed t ∧ nowUtc - t ≤ (maxAgeMs : Int) := by
  cases q with
  | none => simp [get_enrichment_cache]
  | some rows =>
      cases hr : rows.head? with
      | none => simp [get_enrichment_cache, hr]
      | some row =>
          cases he : row.enriched_at with
          | missing => simp [get_enrichment_cache, hr, he]
          | nonString => simp [get_enrichment_cache, hr, he]
          | unparseable => simp [get_enrichment_cache, hr, he]
          | parsed t =>
              simp only [get_enrichment_cache, hr, he, chronoFromStd,
                if_pos hrange, Option.some_bind, Option.some.injEq]
              by_cases hage : nowUtc - t > (maxAgeMs : Int)
              · rw [if_pos hage]
                simp only [Option.isSome_none, Bool.false_eq_true, false_iff]
                rintro ⟨rows', row', t', h1, h2, h3, h4⟩
                cases h1
                rw [hr] at h2
                cases h2
                rw [he] at h3
                cases h3
                omega
              · rw [if_neg hage]
                simp only [Option.isSome_some, true_iff]
                exact ⟨rows, row, t, rfl, hr, he, by omega⟩

/-- C7 witness: a fresh cached row with the 15-minute TTL yields Some. -/
theorem get_enrichment_cache_spec_witness :
    (get_enrichment_cache 0 900000
        (some [{ enriched_at := TsField.parsed 0 }])).isSome = true :=
  (get_enrichment_cache_spec 0 900000 _ (by norm_num)).mpr
    ⟨_, _, 0, rfl, rfl, rfl, by norm_num⟩

/-- C7 counterexample: for a max_age beyond the chrono range (here 2^63
milliseconds), the cache lookup returns None even though a row exists whose
enriched_at is within max_age of now, because Duration::from_std fails and
the failure maps to None. -/
theorem get_enrichment_cache_counterexample :
    get_enrichment_cache 0 (2 ^ 63)
        (some [{ enriched_at := TsField.parsed 0 }]) = none
    ∧ (0 : Int) - 0 ≤ ((2 ^ 63 : Nat) : Int) := by
  constructor
  · simp [get_enrichment_cache, chronoFromStd]
  · norm_num

theorem sortedDedup_perm_dedup (xs : List (List Char)) :
    List.Perm (sortedDedup xs) xs.dedup :=
  List.perm_insertionSort _ _

theorem mem_sortedDedup (xs : List (List Char)) (a : List Char) :
    a ∈ sortedDedup xs ↔ a ∈ xs := by
  rw [(sortedDedup_perm_dedup xs).mem_iff, List.mem_dedup]

theorem sortedDedup_nodup (xs : List (List Char)) : (sortedDedup xs).Nodup :=
  (sortedDedup_perm_dedup xs).nodup_iff.mpr (List.nodup_dedup xs)

theorem sortedDedup_sorted (xs : List (List Char)) :
    List.Sorted (fun a b => a ≤ b) (sortedDedup xs) :=
  List.sorted_insertionSort _ _

theorem sortedDedup_congr (xs ys : List (List Char))
    (h : ∀ a, a ∈ xs ↔ a ∈ ys) : sortedDedup xs = sortedDedup ys := by
  apply List.eq_of_perm_of_sorted ?_ (sortedDedup_sorted xs) (sortedDedup_sorted ys)
  apply (List.perm_ext_iff_of_nodup (sortedDedup_nodup xs) (sortedDedup_nodup ys)).mpr
  intro a
  rw [mem_sortedDedup, mem_sortedDedup]
  exact h a

theorem sortedDedup_ne_nil (xs : List (List Char)) (h : xs ≠ []) :
    sortedDedup xs ≠ [] := by
  rcases List.exists_mem_of_ne_nil xs h with ⟨a, ha⟩
  intro hnil
  have hmem := (mem_sortedDedup xs a).mpr ha
  rw [hnil] at hmem
  exact absurd hmem (List.not_mem_nil a)

theorem splitOn_joinScanners (xs : List (List Char)) (hne : xs ≠ [])
    (hcomma : ∀ c ∈ xs, ',' ∉ c) :
    (joinScanners xs).splitOn ',' = sortedDedup xs := by
  unfold joinScanners
  apply List.splitOn_intercalate
  · intro l hl
    exact hcomma l ((mem_sortedDedup xs l).mp hl)
  · exact sortedDedup_ne_nil xs hne

/-- C5 (amended): the update path unions the incoming codes with the
comma-split existing column and adds the incoming count to hit_count; hence
for two upserts with code lists A then B, with A nonempty (so the stored
column splits back to A's code set rather than to a spurious empty code)
and comma-free codes, the stored scanners equal the sorted comma-join of
set(A ∪ B) and hit_count equals the length of A plus the length of B. -/
theorem record_upsert_scanners (A B : List (List Char))
    (hA : A ≠ []) (hcomma : ∀ c ∈ A ++ B, ',' ∉ c) :
    ((upsertSymbol (some (upsertSymbol none A)) B).scanners
        = joinScanners (A ++ B))
    ∧ ((upsertSymbol (some (upsertSymbol none A)) B).hit_count
        = (A.length : Int) + B.length)
    ∧ (∀ (row : StoredRow) (incoming : List (List Char)),
        (upsertSymbol (some row) incoming).scanners
            = mergeScanners incoming (some row.scanners)
        ∧ (upsertSymbol (some row) incoming).hit_count
            = row.hit_count + incoming.length) := by
  refine ⟨?_, rfl, fun row incoming => ⟨rfl, rfl⟩⟩
  show joinScanners (B ++ (joinScanners A).splitOn ',') = joinScanners (A ++ B)
  rw [splitOn_joinScanners A hA (fun c hc => hcomma c (List.mem_append_left B hc))]
  unfold joinScanners
  apply congrArg
  apply sortedDedup_congr
  intro a
  simp only [List.mem_append, mem_sortedDedup]
  tauto

/-- C5 witness: the amended upsert theorem applied to the singleton lists
[a] then [b]. -/
theorem record_upsert_scanners_witness :
    (upsertSymbol (some (upsertSymbol none [['a']])) [['b']]).scanners
      = joinScanners [['a'], ['b']] :=
  (record_upsert_scanners [['a']] [['b']] (by decide) (by decide)).1

/-- C5 counterexample: with an empty incoming list A (exactly what the
engine sends for enrichment-only writes), the stored scanners column is the
empty string, whose comma-split manufactures an empty code; a second call
with B = [X] therefore stores ,X instead of the claimed sorted join X of
set(A ∪ B). -/
theorem record_upsert_scanners_counterexample :
    (upsertSymbol (some (upsertSymbol none [])) [['X']]).scanners
      ≠ joinScanners ([] ++ [['X']]) := by decide

instance : IsTotal AlertRow rowLE := by
  constructor
  intro a b
  unfold rowLE keyLE
  rcases Nat.lt_trichotomy (rowKey b).1 (rowKey a).1 with h | h | h
  · exact Or.inl (Or.inl h)
  · rcases le_total (rowKey b).2 (rowKey a).2 with h2 | h2
    · exact Or.inl (Or.inr ⟨h.symm, h2⟩)
    · exact Or.inr (Or.inr ⟨h, h2⟩)
  · exact Or.inr (Or.inl h)

instance : IsTrans AlertRow rowLE := by
  constructor
  intro a b c hab hbc
  unfold rowLE keyLE at *
  rcases hab with h1 | ⟨h1, h1q⟩ <;> rcases hbc with h2 | ⟨h2, h2q⟩
  · exact Or.inl (by omega)
  · exact Or.inl (by omega)
  · exact Or.inl (by omega)
  · exact Or.inr ⟨h1.trans h2, le_trans h2q h1q⟩

theorem sortRows_sorted (rows : List AlertRow) :
    List.Sorted rowLE (sortRows rows) :=
  List.sorted_insertionSort _ _

theorem rowKey_applyEnrich (d : EnrichmentData) (r : AlertRow) :
    rowKey (applyEnrich d r) = rowKey r := by
  unfold applyEnrich rowKey chgKey
  rcases hv : r.volume with _ | v <;> rcases ha : d.avg_volume with _ | a <;>
    simp [hv, ha] <;> split_ifs <;> first | rfl | exact ⟨rfl, rfl⟩

theorem symbol_applyEnrich (d : EnrichmentData) (r : AlertRow) :
    (applyEnrich d r).symbol = r.symbol := by
  unfold applyEnrich
  rcases hv : r.volume with _ | v <;> rcases ha : d.avg_volume with _ | a <;>
    simp [hv, ha] <;> split_ifs <;> rfl

theorem updateFirstRow_map {α : Type} (f : AlertRow → α) (sym : String)
    (d : EnrichmentData) (hf : ∀ r, f (applyEnrich d r) = f r) :
    ∀ rows : List AlertRow, (updateFirstRow sym d rows).map f = rows.map f := by
  intro rows
  induction rows with
  | nil => rfl
  | cons r rs ih =>
      unfold updateFirstRow
      by_cases h : r.symbol = sym
      · rw [if_pos h]
        simp [hf r]
      · rw [if_neg h]
        simp [ih]

theorem sorted_congr_keys {l l2 : List AlertRow}
    (h : l.map rowKey = l2.map rowKey) (hs : List.Sorted rowLE l) :
    List.Sorted rowLE l2 := by
  have h1 : List.Pairwise keyLE (l.map rowKey) :=
    List.Pairwise.map rowKey (fun a b hab => hab) hs
  rw [h] at h1
  exact List.Pairwise.of_map rowKey (fun a b hk => hk) h1

theorem portUpdate_rows (st : EngineState) (p : Option Nat) :
    (portUpdate st p).1.alert_rows = st.alert_rows := by
  cases p <;> rfl

theorem portUpdate_seen (st : EngineState) (p : Option Nat) :
    (portUpdate st p).1.alert_seen = st.alert_seen := by
  cases p <;> rfl

theorem processMsg_sorted (nowStr : String) (st : EngineState) (msg : BgMessage)
    (h : List.Sorted rowLE st.alert_rows ∨ isPollMsg msg = true) :
    List.Sorted rowLE (processMsg nowStr st msg).1.alert_rows := by
  cases msg with
  | scanComplete code results port =>
      have hs := h.resolve_right (by simp [isPollMsg])
      simpa [processMsg, portUpdate_rows] using hs
  | listComplete xml group =>
      have hs := h.resolve_right (by simp [isPollMsg])
      simpa [processMsg] using hs
  | pollComplete symbol_data symbol_scanners port scanners_run elapsed =>
      show List.Sorted rowLE (sortRows _)
      exact sortRows_sorted _
  | enrichComplete sym data =>
      have hs := h.resolve_right (by simp [isPollMsg])
      show List.Sorted rowLE (updateFirstRow sym data st.alert_rows)
      exact sorted_congr_keys
        (updateFirstRow_map rowKey sym data (rowKey_applyEnrich data) st.alert_rows).symm
        hs

/-- C1 (amended): after any call to tick that drains at least one
PollComplete message, alert_rows is sorted by scanner_hits descending with
ties by change_pct descending (missing change_pct as zero); and any tick
preserves sortedness when the rows were already sorted. -/
theorem alert_rows_sorted_after_tick (nowStr : String) (msgs : List BgMessage)
    (st : EngineState)
    (h : List.Sorted rowLE st.alert_rows ∨ msgs.any isPollMsg = true) :
    List.Sorted rowLE (tick nowStr msgs st).1.alert_rows := by
  induction msgs generalizing st with
  | nil =>
      rcases h with hs | hany
      · simpa [tick] using hs
      · simp at hany
  | cons m rest ih =>
      show List.Sorted rowLE (tick nowStr rest (processMsg nowStr st m).1).1.alert_rows
      apply ih
      rcases h with hs | hany
      · exact Or.inl (processMsg_sorted nowStr st m (Or.inl hs))
      · cases hm : isPollMsg m
        · right
          simpa [List.any_cons, hm] using hany
        · exact Or.inl (processMsg_sorted nowStr st m (Or.inr hm))

/-- C1 witness: the sortedness theorem applied to a fresh engine draining a
batch containing a PollComplete. -/
theorem alert_rows_sorted_after_tick_witness :
    List.Sorted rowLE
      (tick "" [BgMessage.pollComplete [] [] none 8 1] (newEngine { } false)).1.alert_rows :=
  alert_rows_sorted_after_tick "" _ _ (Or.inr (by decide))

/-- C1 counterexample: reachable via new, init_from_sightings (a 1-hit row
loaded before a 3-hit row) and a tick that drains only an EnrichComplete
message; after that tick alert_rows is not sorted by scanner_hits
descending. -/
theorem alert_rows_sorted_after_tick_counterexample :
    Reachable ceTickState ∧ ¬ List.Sorted rowLE ceTickState.alert_rows := by
  constructor
  · exact Reachable.tickR _ _ _ (by intro m hm; simp at hm; subst hm; trivial)
      (Reachable.init _ _ _ (Reachable.new _ _))
  · decide

theorem lookup_isSome_of_mem {β : Type} (l : List (String × β)) (sym : String)
    (h : sym ∈ l.map Prod.fst) : (l.lookup sym).isSome = true := by
  induction l with
  | nil => simp at h
  | cons p rest ih =>
      rcases p with ⟨k, v⟩
      cases hbe : sym == k
      · have hne : sym ≠ k := by simpa using hbe
        have hrest : sym ∈ rest.map Prod.fst := by
          rcases List.mem_cons.mp h with h1 | h1
          · exact absurd h1 hne
          · exact h1
        simpa [List.lookup, hbe] using ih hrest
      · simp [List.lookup, hbe]

theorem EngineInv_of_syms_perm (st1 st2 : EngineState)
    (hp : List.Perm (rowSyms st2.alert_rows) (rowSyms st1.alert_rows))
    (hs : st2.alert_seen = st1.alert_seen) (h : EngineInv st1) : EngineInv st2 := by
  unfold EngineInv at *
  exact ⟨hp.nodup_iff.mpr h.1, fun x => by rw [hp.mem_iff, hs]; exact h.2 x⟩

theorem EngineInv_of_eq (st1 st2 : EngineState)
    (hr : st2.alert_rows = st1.alert_rows)
    (hs : st2.alert_seen = st1.alert_seen) (h : EngineInv st1) : EngineInv st2 :=
  EngineInv_of_syms_perm st1 st2 (by rw [hr]) hs h

theorem EngineInv_push (st : EngineState) (row : AlertRow)
    (hfresh : row.symbol ∉ st.alert_seen) (h : EngineInv st) :
    EngineInv { st with alert_seen := insert row.symbol st.alert_seen,
                        alert_rows := st.alert_rows ++ [row] } := by
  obtain ⟨hnd, hmem⟩ := h
  have hnotrow : row.symbol ∉ rowSyms st.alert_rows := fun hx => hfresh ((hmem _).mp hx)
  constructor
  · show (rowSyms (st.alert_rows ++ [row])).Nodup
    unfold rowSyms at *
    rw [List.map_append]
    exact List.Nodup.append hnd (List.nodup_singleton _)
      (by simpa [List.disjoint_left] using hnotrow)
  · intro x
    show x ∈ rowSyms (st.alert_rows ++ [row]) ↔ x ∈ insert row.symbol st.alert_seen
    unfold rowSyms at *
    rw [List.map_append]
    simp only [List.mem_append, List.map_cons, List.map_nil, List.mem_singleton,
      Finset.mem_insert]
    rw [hmem x]
    tauto

theorem initLoop_inv (nowUtc : Int) (sights : List Sighting) (st : EngineState)
    (hnodup : (sights.map Sighting.symbol).Nodup)
    (hdisj : ∀ s ∈ sights, s.symbol ∉ st.alert_seen)
    (hinv : EngineInv st) :
    EngineInv (initLoop nowUtc sights st).1 := by
  induction sights generalizing st with
  | nil => simpa [initLoop] using hinv
  | cons s rest ih =>
      show EngineInv (initLoop nowUtc rest _).1
      rcases List.nodup_cons.mp hnodup with ⟨hshead, hrestnd⟩
      refine ih _ hrestnd ?_ (EngineInv_push st (sightingRow nowUtc s)
        (hdisj s (List.mem_cons_self s rest)) hinv)
      intro s2 hs2
      simp only [Finset.mem_insert, not_or]
      constructor
      · intro hsym
        exact hshead (hsym ▸ List.mem_map_of_mem Sighting.symbol hs2)
      · exact hdisj s2 (List.mem_cons_of_mem s hs2)

theorem init_from_sightings_inv (nowUtc : Int) (today : Option (List Sighting))
    (st : EngineState)
    (hnodup : ((today.getD []).map Sighting.symbol).Nodup)
    (hdisj : ∀ s ∈ today.getD [], s.symbol ∉ st.alert_seen)
    (hinv : EngineInv st) :
    EngineInv (init_from_sightings nowUtc today st).1 := by
  unfold init_from_sightings
  cases hdb : st.hasDb
  · simpa [hdb] using hinv
  · cases today with
    | none => simpa [hdb] using hinv
    | some list =>
        simp only [hdb, if_true]
        exact initLoop_inv nowUtc list st (by simpa using hnodup)
          (by simpa using hdisj) hinv

theorem addNewSyms_inv (nowStr : String) (symbol_data : List (String × ScanResult))
    (symbol_scanners : List (String × List String)) (syms : List String)
    (st : EngineState)
    (hnodup : syms.Nodup)
    (hfresh : ∀ sym ∈ syms, sym ∉ st.alert_seen)
    (hkeys : ∀ sym ∈ syms, sym ∈ symbol_data.map Prod.fst)
    (hinv : EngineInv st) :
    EngineInv (addNewSyms nowStr symbol_data symbol_scanners syms st).1 := by
  induction syms generalizing st with
  | nil => simpa [addNewSyms] using hinv
  | cons sym rest ih =>
      have hlk := lookup_isSome_of_mem symbol_data sym
        (hkeys sym (List.mem_cons_self sym rest))
      rcases List.nodup_cons.mp hnodup with ⟨hhead, hrestnd⟩
      rcases hr : symbol_data.lookup sym with _ | r
      · rw [hr] at hlk
        simp at hlk
      · show EngineInv (addNewSyms nowStr symbol_data symbol_scanners (sym :: rest) st).1
        unfold addNewSyms
        rw [hr]
        refine ih _ hrestnd ?_ ?_ (EngineInv_push st
          (pollNewRow nowStr sym r (((symbol_scanners.lookup sym).getD []).length))
          (hfresh sym (List.mem_cons_self sym rest)) hinv)
        · intro s2 hs2
          simp only [Finset.mem_insert, not_or]
          exact ⟨fun he => hhead (he ▸ hs2), hfresh s2 (List.mem_cons_of_mem sym hs2)⟩
        · intro s2 hs2
          exact hkeys s2 (List.mem_cons_of_mem sym hs2)

theorem EngineInv_updateFirst (x : EngineState) (sym : String)
    (data : EnrichmentData) (h : EngineInv x) :
    EngineInv { x with alert_rows := updateFirstRow sym data x.alert_rows } := by
  refine EngineInv_of_syms_perm x _ ?_ rfl h
  show List.Perm (rowSyms (updateFirstRow sym data x.alert_rows)) (rowSyms x.alert_rows)
  unfold rowSyms
  rw [updateFirstRow_map AlertRow.symbol sym data (symbol_applyEnrich data)]

theorem EngineInv_sortRows (x : EngineState) (h : EngineInv x) :
    EngineInv { x with alert_rows := sortRows x.alert_rows, bg_busy := false } := by
  refine EngineInv_of_syms_perm x _ ?_ rfl h
  show List.Perm (rowSyms (sortRows x.alert_rows)) (rowSyms x.alert_rows)
  unfold rowSyms sortRows
  exact (List.perm_insertionSort rowLE _).map AlertRow.symbol

theorem processMsg_inv (nowStr : String) (st : EngineState) (msg : BgMessage)
    (hwf : msgWF msg) (hinv : EngineInv st) :
    EngineInv (processMsg nowStr st msg).1 := by
  cases msg with
  | scanComplete code results port =>
      exact EngineInv_of_eq st _ (portUpdate_rows st port) (portUpdate_seen st port) hinv
  | listComplete xml group =>
      exact EngineInv_of_eq st _ rfl rfl hinv
  | enrichComplete sym data =>
      exact EngineInv_updateFirst st sym data hinv
  | pollComplete symbol_data symbol_scanners port scanners_run elapsed =>
      have hwf2 : (symbol_data.map Prod.fst).Nodup := hwf
      have hinv1 : EngineInv (portUpdate st port).1 :=
        EngineInv_of_eq st _ (portUpdate_rows st port) (portUpdate_seen st port) hinv
      have hinv2 := addNewSyms_inv nowStr symbol_data symbol_scanners
        ((symbol_data.map Prod.fst).filter
          (fun s => decide (s ∉ (portUpdate st port).1.alert_seen)))
        (portUpdate st port).1
        (hwf2.filter _)
        (fun sym hs => by
          have := List.of_mem_filter hs
          simpa using this)
        (fun sym hs => List.mem_of_mem_filter hs)
        hinv1
      exact EngineInv_sortRows _ hinv2

theorem tick_inv (nowStr : String) (msgs : List BgMessage) (st : EngineState)
    (hwf : ∀ m ∈ msgs, msgWF m) (hinv : EngineInv st) :
    EngineInv (tick nowStr msgs st).1 := by
  induction msgs generalizing st with
  | nil => simpa [tick] using hinv
  | cons m rest ih =>
      show EngineInv (tick nowStr rest (processMsg nowStr st m).1).1
      exact ih _ (fun m2 hm2 => hwf m2 (List.mem_cons_of_mem m hm2))
        (processMsg_inv nowStr st m (hwf m (List.mem_cons_self m rest)) hinv)

theorem poll_on_rows (st : EngineState) : (poll_on st).1.alert_rows = st.alert_rows := by
  unfold poll_on run_poll_scanners
  split_ifs <;> rfl

theorem poll_on_seen (st : EngineState) : (poll_on st).1.alert_seen = st.alert_seen := by
  unfold poll_on run_poll_scanners
  split_ifs <;> rfl

/-- C2 (amended): in every state reached by the public operations under the
intended startup protocol (each init_from_sightings call loads rows with
distinct, not-yet-seen symbols, as happens on a fresh engine), every symbol
in alert_rows has exactly one row, and the row symbols coincide with the
alert_seen set - always, hence in particular immediately after any tick. -/
theorem alert_rows_unique_inv (st : EngineState) (h : GoodReachable st) :
    EngineInv st := by
  induction h with
  | new settings hasDb =>
      constructor
      · simp [newEngine, rowSyms]
      · intro x
        simp [newEngine, rowSyms]
  | init st nowUtc today hnodup hdisj _ ih =>
      exact init_from_sightings_inv nowUtc today st hnodup hdisj ih
  | pollOn st _ ih =>
      exact EngineInv_of_eq st _ (poll_on_rows st) (poll_on_seen st) ih
  | pollOff st _ ih =>
      exact EngineInv_of_eq st _ rfl rfl ih
  | pollClear st _ ih =>
      constructor
      · simp [poll_clear, rowSyms]
      · intro x
        simp [poll_clear, rowSyms]
  | tickR st nowStr msgs hwf _ ih =>
      exact tick_inv nowStr msgs st hwf ih

/-- C2 witness: the invariant theorem applied to a fresh engine. -/
theorem alert_rows_unique_inv_witness : EngineInv (newEngine { } false) :=
  alert_rows_unique_inv _ (GoodReachable.new { } false)

/-- C2 counterexample: the claim as stated fails for states reachable by the
public operations, because init_from_sightings never checks the dedup set:
calling it twice with the same sighting yields a reachable state in which
AAA is in alert_seen but has two AlertRows. -/
theorem alert_rows_unique_counterexample :
    Reachable ceDupState
    ∧ (ceDupState.alert_rows.filter (fun r => decide (r.symbol = "AAA"))).length = 2
    ∧ "AAA" ∈ ceDupState.alert_seen := by
  refine ⟨?_, by decide, by decide⟩
  exact Reachable.init _ _ _ (Reachable.init _ _ _ (Reachable.new _ _))

theorem wsteps_append (s s2 : WState) (l1 l2 : List WEv)
    (h : WSteps s (l1 ++ l2) s2) : ∃ m, WSteps s l1 m ∧ WSteps m l2 s2 := by
  induction l1 generalizing s with
  | nil => exact ⟨s, WSteps.nil s, h⟩
  | cons e rest ih =>
      cases h with
      | cons _ s1 _ _ _ hstep hrest =>
          rcases ih s1 hrest with ⟨m, h1, h2⟩
          exact ⟨m, WSteps.cons _ _ _ _ _ hstep h1, h2⟩

theorem wsteps_fetch_bound (sym : String) (s s2 : WState) (evs : List WEv)
    (h : WSteps s evs s2) :
    (∀ e ∈ evs, isSentinelEv e = false) →
    evs.countP (isFetchOf sym) ≤ 1
    ∧ (sym ∈ s.enriched → evs.countP (isFetchOf sym) = 0 ∧ sym ∈ s2.enriched) := by
  induction h with
  | nil s =>
      intro _
      exact ⟨by simp, fun hm => ⟨by simp, hm⟩⟩
  | cons s s1 s2 e evs hstep hrest ih =>
      intro hns
      have ihr := ih (fun e2 he2 => hns e2 (List.mem_cons_of_mem e he2))
      cases hstep with
      | recv_push r hne hnotin =>
          simpa [List.countP_cons, isFetchOf] using ihr
      | recv_dup r hne hin =>
          simpa [List.countP_cons, isFetchOf] using ihr
      | recv_sentinel =>
          have := hns WEv.sentinel (List.mem_cons_self _ _)
          simp [isSentinelEv] at this
      | recv_sentinel_idle hheap =>
          have := hns WEv.sentinel (List.mem_cons_self _ _)
          simp [isSentinelEv] at this
      | pop_skip r hmax hin =>
          simpa [List.countP_cons, isFetchOf] using ihr
      | pop_hit r hmax hnotin =>
          refine ⟨by simpa [List.countP_cons, isFetchOf] using ihr.1, fun hm => ?_⟩
          have hm1 : sym ∈ (insert r.symbol s.enriched : Finset String) :=
            Finset.mem_insert_of_mem hm
          have := ihr.2 hm1
          constructor
          · simpa [List.countP_cons, isFetchOf] using this.1
          · exact this.2
      | pop_miss r hmax hnotin =>
          by_cases hsym : r.symbol = sym
          · subst hsym
            have hm1 : r.symbol ∈ (insert r.symbol s.enriched : Finset String) :=
              Finset.mem_insert_self _ _
            have h0 := ihr.2 hm1
            constructor
            · simp [List.countP_cons, isFetchOf, h0.1]
            · intro hm
              exact absurd hm hnotin
          · refine ⟨by simpa [List.countP_cons, isFetchOf, hsym] using ihr.1,
              fun hm => ?_⟩
            have hm1 : sym ∈ (insert r.symbol s.enriched : Finset String) :=
              Finset.mem_insert_of_mem hm
            have := ihr.2 hm1
            constructor
            · simpa [List.countP_cons, isFetchOf, hsym] using this.1
            · exact this.2
      | step_timeout =>
          simpa [List.countP_cons, isFetchOf] using ihr

/-- C4: along every worker execution from the initial worker state, any
contiguous stretch of events containing no sentinel receive (in particular
the stretch between two consecutive sentinels) calls the Enricher at most
once per symbol, whatever requests arrive and whatever their priorities. -/
theorem worker_fetch_once (evs pre mid post : List WEv) (s2 : WState)
    (h : WSteps initialWState evs s2) (hsplit : evs = pre ++ (mid ++ post))
    (hmid : ∀ e ∈ mid, isSentinelEv e = false) (sym : String) :
    mid.countP (isFetchOf sym) ≤ 1 := by
  subst hsplit
  rcases wsteps_append _ _ _ _ h with ⟨m1, h1, h2⟩
  rcases wsteps_append _ _ _ _ h2 with ⟨m2, h3, h4⟩
  exact (wsteps_fetch_bound sym m1 m2 mid h3 hmid).1

/-- C4 witness: a concrete run that receives AAPL twice (the second receive
arrives after AAPL entered the enriched set and is dropped), fetches once,
and satisfies the bound. -/
theorem worker_fetch_once_witness :
    ([WEv.recv { symbol := "AAPL", scanner_hits := 3 },
      WEv.fetchMiss "AAPL",
      WEv.recv { symbol := "AAPL", scanner_hits := 5 }].countP
        (isFetchOf "AAPL")) ≤ 1 :=
  worker_fetch_once _ []
    [WEv.recv { symbol := "AAPL", scanner_hits := 3 },
     WEv.fetchMiss "AAPL",
     WEv.recv { symbol := "AAPL", scanner_hits := 5 }] [] _
    (WSteps.cons _ _ _ _ _
      (WStep.recv_push initialWState { symbol := "AAPL", scanner_hits := 3 }
        (by decide) (by decide))
      (WSteps.cons _ _ _ _ _
        (WStep.pop_miss _ { symbol := "AAPL", scanner_hits := 3 }
          (by constructor
              · decide
              · decide)
          (by decide))
        (WSteps.cons _ _ _ _ _
          (WStep.recv_dup _ { symbol := "AAPL", scanner_hits := 5 }
            (by decide) (by decide))
          (WSteps.nil _))))
    rfl (by decide) "AAPL"
